import Mathlib

/-!
Verification of the FissureEngine registry (src/fissure_engine/FissureEngine.py)
against its natural-language specification.

Shallow embedding conventions:
* Python `datetime` values are modelled as `Int` seconds since the epoch
  (the source only ever constructs whole-second datetimes via
  `datetime.fromtimestamp(ms // 1000)` and compares / subtracts them).
* `timedelta(minutes=3)` is 180 seconds.
* Python dictionaries that the engine reads from the missing `.common`
  module (`sol_nodes`, `fissure_parser`, `SORT_ORDER`) are injected as a
  read-only `Config` record, as the spec prescribes ("static reference-data
  loading ... treated as an injected read-only mapping").
* Fallible dictionary accesses (`KeyError`) are modelled with `Option`;
  a raised exception during an engine operation is modelled with `Except`.
* Python's stable `list.sort(key=...)` is modelled by `List.insertionSort`
  with the non-strict key order; a stable sort for a total preorder is
  extensionally unique, so this coincides with the source's sort.
-/

/-- The `Fissure` dataclass: one timed entity.  Field order and names follow
the Python dataclass (`node, mission, planet, tileset, enemy, era, tier,
expiry, fissure_type`); equality is fieldwise value equality, exactly the
dataclass-generated one used by the diffing code. -/
structure Fissure where
  node : String
  mission : String
  planet : String
  tileset : String
  enemy : String
  era : String
  tier : Int
  expiry : Int
  fissure_type : String
deriving DecidableEq, Repr

def FISSURE_TYPE_VOID_STORMS : String := "Void Storms"

def FISSURE_TYPE_STEEL_PATH : String := "Steel Path"

def FISSURE_TYPE_NORMAL : String := "Normal"

def FISSURE_TYPES : List String :=
  [FISSURE_TYPE_VOID_STORMS, FISSURE_TYPE_STEEL_PATH, FISSURE_TYPE_NORMAL]

def DISPLAY_TYPE_DISCORD : String := "Discord"

def DISPLAY_TYPE_TIME_LEFT : String := "Time Left"

def ERA_LITH : String := "Lith"

def ERA_MESO : String := "Meso"

def ERA_NEO : String := "Neo"

def ERA_AXI : String := "Axi"

def ERA_REQUIEM : String := "Requiem"

def ERA_LIST : List String := [ERA_LITH, ERA_MESO, ERA_NEO, ERA_AXI, ERA_REQUIEM]

def ERA_LIST_VOID_STORMS : List String := [ERA_LITH, ERA_MESO, ERA_NEO, ERA_AXI]

def MAX_STORED_UPDATES : Nat := 10

/-- `format_time_remaining(expiry, display_type)`.  `datetime.now()` is the
explicit `now` argument.  In the `'Time Left'` branch the source computes
`divmod(total_seconds, 3600)` and `divmod(remainder, 60)` (Python floor
division / floor remainder, hence `Int.fdiv` / `Int.fmod`) and renders
`f"in {hours} hour ...{minutes} minute(s)"`, the hour segment only when
`hours > 0` and the plural `s` unless `minutes == 1`.  In the `'Discord'`
branch it renders the epoch-second marker.  Any other display type falls
through and returns Python `None`, i.e. `none`. -/
def format_time_remaining (now expiry : Int) (display_type : String) : Option String :=
  if display_type = DISPLAY_TYPE_TIME_LEFT then
    let time_remaining := expiry - now
    let hours := Int.fdiv time_remaining 3600
    let remainder := Int.fmod time_remaining 3600
    let minutes := Int.fdiv remainder 60
    some ("in " ++ (if 0 < hours then toString hours ++ " hour " else "") ++
      toString minutes ++ " minute" ++ (if minutes = 1 then "" else "s"))
  else if display_type = DISPLAY_TYPE_DISCORD then
    some ("<t:" ++ toString expiry ++ ":R>")
  else
    none

/-- One record of the `sol_nodes` table: the node's declared mission type,
display name, planet, optional tileset and enemy faction.  An absent
`'tileset'` key is an `Option`. -/
structure NodeRecord where
  type : String
  node : String
  planet : String
  tileset : Option String
  enemy : String
deriving DecidableEq, Repr

/-- Modelled from the spec: the read-only reference tables that the source
imports from the repository's `.common` module, which is not under `src/`.
The spec treats them as an injected read-only mapping ("static reference-data
loading (node/mission/era lookup tables, treated as an injected read-only
mapping)"), so they are a parameter of every rebuild: `sol_nodes`,
`fissure_parser['mission_overrides']`, `fissure_parser['era_key']`,
`fissure_parser['era']`, `fissure_parser['tier']` as association lists, and
the `SORT_ORDER` era-rank table as a function. -/
structure Config where
  sol_nodes : List (String × NodeRecord)
  mission_overrides : List (String × String)
  era_key : List (String × String)
  era_table : List (String × String)
  tier_table : List (String × Int)
  SORT_ORDER : String → Nat

/-- A raw feed record, schematised: the free-form marker / era-code fields as
a string-to-string mapping (presence of `'ActiveMissionTier'` or `'Hard'` is
key presence here), plus the two structured accesses the builder makes —
`fissure['Node']` and `fissure['Expiry']['$date']['$numberLong']` — as
optional fields (absent means the Python access raises `KeyError`). -/
structure RawFissure where
  fields : List (String × String)
  node : Option String
  expiryMs : Option Int
deriving DecidableEq, Repr

def hasKey (l : List (String × String)) (k : String) : Bool :=
  l.any (fun p => p.1 = k)

/-- `classify_fissure_type`: first-match-wins marker priority —
`'ActiveMissionTier'` → Void Storms, else `'Hard'` → Steel Path, else
Normal. -/
def classify_fissure_type (raw : RawFissure) : String :=
  if hasKey raw.fields "ActiveMissionTier" then FISSURE_TYPE_VOID_STORMS
  else if hasKey raw.fields "Hard" then FISSURE_TYPE_STEEL_PATH
  else FISSURE_TYPE_NORMAL

/-- `get_expiry_datetime`: `datetime.fromtimestamp(int(numberLong) // 1000)`,
i.e. floor division of the epoch milliseconds by 1000; `none` when the
nested `'Expiry'` access raises. -/
def get_expiry_datetime (raw : RawFissure) : Option Int :=
  raw.expiryMs.map (fun ms => Int.fdiv ms 1000)

/-- `get_node_data`: looks the node id up in `sol_nodes` (`KeyError` → `none`),
takes the mission from `mission_overrides` when the id is listed there and
from the node's own `type` otherwise, and defaults an absent tileset to
`"Space"`. -/
def get_node_data (cfg : Config) (node_name : String) :
    Option (String × String × String × String × String) :=
  match cfg.sol_nodes.lookup node_name with
  | none => none
  | some node =>
    let mission := match cfg.mission_overrides.lookup node_name with
      | some m => m
      | none => node.type
    let tileset := match node.tileset with
      | none => "Space"
      | some t => t
    some (mission, node.node, node.planet, tileset, node.enemy)

/-- `get_fissure_data`: era from
`fissure_parser['era'][fissure[fissure_parser['era_key'][fissure_type]]]` and
tier from `fissure_parser['tier'][mission]`; any `KeyError` → `none`. -/
def get_fissure_data (cfg : Config) (raw : RawFissure) (fissure_type mission : String) :
    Option (String × Int) :=
  match cfg.era_key.lookup fissure_type with
  | none => none
  | some ek =>
    match raw.fields.lookup ek with
    | none => none
    | some code =>
      match cfg.era_table.lookup code with
      | none => none
      | some era =>
        match cfg.tier_table.lookup mission with
        | none => none
        | some tier => some (era, tier)

/-- One iteration of the `build_fissure_list` loop body, in source order:
classify, expiry, node data, era/tier, then construct
`Fissure(location, mission, planet, tileset, enemy, era, tier, expiry,
fissure_type)`.  `none` is the loop body raising. -/
def buildEntry (cfg : Config) (raw : RawFissure) : Option Fissure :=
  let fissure_type := classify_fissure_type raw
  match get_expiry_datetime raw with
  | none => none
  | some expiry =>
    match raw.node with
    | none => none
    | some node_name =>
      match get_node_data cfg node_name with
      | none => none
      | some (mission, location, planet, tileset, enemy) =>
        match get_fissure_data cfg raw fissure_type mission with
        | none => none
        | some (era, tier) =>
          some { node := location, mission := mission, planet := planet,
                 tileset := tileset, enemy := enemy, era := era, tier := tier,
                 expiry := expiry, fissure_type := fissure_type }

/-- The three per-category collections of `self.fissure_lists`, in the
insertion order of the `__init__` dictionary: Void Storms, Steel Path,
Normal. -/
structure FissureLists where
  void_storms : List Fissure
  steel_path : List Fissure
  normal : List Fissure
deriving DecidableEq, Repr

def emptyLists : FissureLists := ⟨[], [], []⟩

/-- Dictionary access `self.fissure_lists[c]` for the three canonical keys
(the only keys the engine ever uses; anything else would raise `KeyError`
in Python and is mapped to `[]`, unreachable behind the category checks). -/
def getList (ls : FissureLists) (c : String) : List Fissure :=
  if c = FISSURE_TYPE_VOID_STORMS then ls.void_storms
  else if c = FISSURE_TYPE_STEEL_PATH then ls.steel_path
  else if c = FISSURE_TYPE_NORMAL then ls.normal
  else []

/-- `add_fissure`: append to the category's list.  The engine only ever calls
this with one of the three canonical keys (the classifier's codomain). -/
def add_fissure (ls : FissureLists) (f : Fissure) (fissure_type : String) : FissureLists :=
  if fissure_type = FISSURE_TYPE_VOID_STORMS then
    { ls with void_storms := ls.void_storms ++ [f] }
  else if fissure_type = FISSURE_TYPE_STEEL_PATH then
    { ls with steel_path := ls.steel_path ++ [f] }
  else
    { ls with normal := ls.normal ++ [f] }

/-- The engine state: per-category collections, the bounded update log
(deque of `(timestamp, new fissures)` with `maxlen=10`) and `last_update`
(`None` before the first rebuild). -/
structure EngineState where
  fissure_lists : FissureLists
  update_log : List (Int × List Fissure)
  last_update : Option Int
deriving DecidableEq, Repr

/-- A fresh `FissureEngine()`: empty collections, empty log, no
`last_update`. -/
def initState : EngineState := ⟨emptyLists, [], none⟩

/-- Appending to a `deque(maxlen=10)`: the oldest entry is evicted once the
length would exceed the capacity. -/
def pushLog (l : List (Int × List Fissure)) (e : Int × List Fissure) :
    List (Int × List Fissure) :=
  let l2 := l ++ [e]
  if MAX_STORED_UPDATES < l2.length then l2.drop (l2.length - MAX_STORED_UPDATES) else l2

/-- The `for fissure in world_state[...]` loop of `build_fissure_list`,
acting on the (already cleared) collections.  A failing entry raises, i.e.
stops the loop and leaves the collections at their partially rebuilt value,
which the error carries. -/
def buildLoop (cfg : Config) : List RawFissure → FissureLists →
    Except FissureLists FissureLists
  | [], ls => .ok ls
  | raw :: raws, ls =>
    match buildEntry cfg raw with
    | none => .error ls
    | some f => buildLoop cfg raws (add_fissure ls f f.fissure_type)

/-- The sort key order of
`fissure_list.sort(key=lambda fissure: (SORT_ORDER[fissure.era], fissure.expiry))`:
lexicographic on (era rank, expiry). -/
def fissureLE (ord : String → Nat) (a b : Fissure) : Prop :=
  ord a.era < ord b.era ∨ (ord a.era = ord b.era ∧ a.expiry ≤ b.expiry)

instance (ord : String → Nat) : DecidableRel (fissureLE ord) := fun a b => by
  unfold fissureLE; infer_instance

instance (ord : String → Nat) : IsTotal Fissure (fissureLE ord) :=
  ⟨fun a b => by unfold fissureLE; omega⟩

instance (ord : String → Nat) : IsTrans Fissure (fissureLE ord) :=
  ⟨fun a b c hab hbc => by unfold fissureLE at *; omega⟩

/-- Python's stable in-place sort of each category list by
`(SORT_ORDER[era], expiry)`; a stable sort for a total preorder is unique,
so insertion sort is the extensional model. -/
def sortLists (cfg : Config) (ls : FissureLists) : FissureLists :=
  ⟨List.insertionSort (fissureLE cfg.SORT_ORDER) ls.void_storms,
   List.insertionSort (fissureLE cfg.SORT_ORDER) ls.steel_path,
   List.insertionSort (fissureLE cfg.SORT_ORDER) ls.normal⟩

/-- `[fissure for fissure in new if fissure not in old]` — value-equality
membership. -/
def diffList (new old : List Fissure) : List Fissure :=
  new.filter (fun f => decide (f ∉ old))

/-- `build_fissure_list`, with the feed (`ActiveMissions + VoidStorms`,
already concatenated) and `datetime.now()` as explicit inputs.  The source
deep-copies the collections, clears them in place, builds one `Fissure` per
raw entry (any failure raises out of the method at that point — the state the
error carries has the cleared, partially repopulated collections and the
untouched log and `last_update`), sorts each collection, computes the diff
against the copy per category in dictionary order unless this is the first
ever rebuild, appends `(timestamp, diff)` to the log only when the diff is
non-empty, always sets `last_update`, and returns the diff. -/
def build_fissure_list (cfg : Config) (now : Int) (raws : List RawFissure)
    (s : EngineState) : Except EngineState (EngineState × List Fissure) :=
  let old := s.fissure_lists
  match buildLoop cfg raws emptyLists with
  | .error pl => .error { s with fissure_lists := pl }
  | .ok built =>
    let sorted := sortLists cfg built
    let new_fissures :=
      if s.last_update.isSome then
        diffList sorted.void_storms old.void_storms ++
        diffList sorted.steel_path old.steel_path ++
        diffList sorted.normal old.normal
      else []
    let log2 := if new_fissures.isEmpty then s.update_log
                else pushLog s.update_log (now, new_fissures)
    .ok ({ fissure_lists := sorted, update_log := log2, last_update := some now },
         new_fissures)

/-- `get_updates_since`: the current `last_update` and the flattened list of
logged diffs whose timestamp is strictly newer than the client's. -/
def get_updates_since (s : EngineState) (client_timestamp : Int) :
    Option Int × List Fissure :=
  (s.last_update,
   (s.update_log.filter (fun e => decide (client_timestamp < e.1))).flatMap (fun e => e.2))

/-- `get_era_list(fissure_type)`: the four-era list for Void Storms, the
five-era list otherwise.  The Python default argument for `fissure_type` is
`FISSURE_TYPE_NORMAL`. -/
def get_era_list (fissure_type : String) : List String :=
  if fissure_type = FISSURE_TYPE_VOID_STORMS then ERA_LIST_VOID_STORMS else ERA_LIST

/-- Errors an engine operation can raise: the
`ValueError(f"Invalid fissure type: ...")` of `get_fissures` / `get_resets`,
and the `ValueError` `min()` raises on an empty sequence inside
`get_resets`. -/
inductive EngineError where
  | invalidCategory
  | emptySequence
deriving DecidableEq, Repr

instance {e a : Type} [DecidableEq e] [DecidableEq a] : DecidableEq (Except e a) := fun x y =>
  match x, y with
  | .ok u, .ok v =>
    if h : u = v then .isTrue (by rw [h]) else .isFalse (fun hh => h (Except.ok.inj hh))
  | .error u, .error v =>
    if h : u = v then .isTrue (by rw [h]) else .isFalse (fun hh => h (Except.error.inj hh))
  | .ok _, .error _ => .isFalse (fun hh => Except.noConfusion hh)
  | .error _, .ok _ => .isFalse (fun hh => Except.noConfusion hh)

/-- `itertools.groupby(fissures, key=lambda fissure: fissure.era)`: maximal
runs of consecutive entries with the same era, each run with its key
(structurally recursive from the right; a new element merges into the first
run exactly when it continues the same era). -/
def groupByEra : List Fissure → List (String × List Fissure)
  | [] => []
  | f :: fs =>
    match groupByEra fs with
    | [] => [(f.era, [f])]
    | (e, g) :: rest =>
      if f.era = e then (f.era, f :: g) :: rest
      else (f.era, [f]) :: (e, g) :: rest

/-- Python dict assignment `d[k] = v`: overwrite in place when the key is
present (keeping the key's position), append otherwise. -/
def dictInsert {β : Type} (d : List (String × β)) (k : String) (v : β) :
    List (String × β) :=
  if d.any (fun p => p.1 = k) then
    d.map (fun p => if p.1 = k then (k, v) else p)
  else d ++ [(k, v)]

/-- Descending sort order on expiry, for
`sorted(group, key=lambda fissure: fissure.expiry, reverse=True)`. -/
def expiryGE (a b : Fissure) : Prop := b.expiry ≤ a.expiry

instance : DecidableRel expiryGE := fun a b => by unfold expiryGE; infer_instance

instance : IsTotal Fissure expiryGE := ⟨fun a b => by unfold expiryGE; omega⟩

instance : IsTrans Fissure expiryGE := ⟨fun a b c h1 h2 => by unfold expiryGE at *; omega⟩

/-- The inner loop of `get_last_expiry` for one category: filter to the era
scope, group consecutively by era, and for each group store (dict-assign)
the group's latest expiry minus `timedelta(minutes=3)` under the era key.
Groups produced by `groupByEra` are never empty, so the `[]` match arm is
unreachable. -/
def lastExpiryInner (era_list : List String) (fissures : List Fissure) :
    List (String × Int) :=
  (groupByEra (fissures.filter (fun f => decide (f.era ∈ era_list)))).foldl
    (fun d g =>
      match List.insertionSort expiryGE g.2 with
      | [] => d
      | f :: _ => dictInsert d g.1 (f.expiry - 180)) []

/-- `get_last_expiry(era_list)`: a `defaultdict(dict)` keyed by category (in
the fixed dictionary order), a category key existing only when at least one
era group was assigned for it.  When called with `era_list=None` the source
uses `self.get_era_list()`, whose own default argument is
`FISSURE_TYPE_NORMAL` — the category at hand is never passed. -/
def get_last_expiry (s : EngineState) (era_list : Option (List String)) :
    List (String × List (String × Int)) :=
  let el := era_list.getD (get_era_list FISSURE_TYPE_NORMAL)
  (FISSURE_TYPES.map (fun c => (c, lastExpiryInner el (getList s.fissure_lists c)))).filter
    (fun p => ¬ p.2.isEmpty)

/-- `min(items, key=lambda x: x[1])`: the first pair with the smallest value,
`none` on an empty sequence (Python raises `ValueError`). -/
def minByVal : List (String × Int) → Option (String × Int)
  | [] => none
  | x :: xs => some (xs.foldl (fun b y => if y.2 < b.2 then y else b) x)

/-- Reading `last_expiries[fissure_type]` from the `defaultdict(dict)`:
an absent key yields a fresh empty dict. -/
def lookupInner (d : List (String × List (String × Int))) (c : String) :
    List (String × Int) :=
  match d.lookup c with
  | some inner => inner
  | none => []

/-- `get_resets(fissure_type, display_type, emoji_dict, era_list)`: resolve
the era-list default (via `self.get_era_list()` — note: without passing
`fissure_type`), reject unknown categories, compute the per-era last
expiries, and render the "Next reset is ..." line (the era with the minimal
value) followed by one line per era in dict order.  `datetime.now()` is the
explicit `now`.  An invalid display type makes `format_time_remaining`
return `None`, which the f-string renders as the text `"None"`. -/
def get_resets (now : Int) (s : EngineState) (fissure_type display_type : String)
    (emoji_dict : Option (List (String × String))) (era_list : Option (List String)) :
    Except EngineError (List String) :=
  let el := era_list.getD (get_era_list FISSURE_TYPE_NORMAL)
  if fissure_type ∉ FISSURE_TYPES then .error .invalidCategory
  else
    let last_expiries := get_last_expiry s (some el)
    let get_emoji : String → String := fun e =>
      match emoji_dict with
      | some d => (d.lookup e).getD e
      | none => e
    let fmt : Int → String := fun x =>
      match format_time_remaining now x display_type with
      | some str => str
      | none => "None"
    let inner := lookupInner last_expiries fissure_type
    match minByVal inner with
    | none => .error .emptySequence
    | some soonest =>
      .ok (("Next reset is " ++ soonest.1 ++ " " ++ fmt soonest.2) ::
        inner.map (fun p => get_emoji p.1 ++ " " ++ fmt p.2))

/-- An attribute value of a `Fissure`: a string or an integer. -/
inductive AttrVal where
  | str (v : String)
  | int (v : Int)
deriving DecidableEq, Repr

/-- A keyword-filter value passed to `get_fissures`: a single value or a
list of accepted values. -/
inductive FilterVal where
  | one (v : AttrVal)
  | many (vs : List AttrVal)
deriving DecidableEq, Repr

/-- `_ensure_list`. -/
def ensure_list : FilterVal → List AttrVal
  | .one v => [v]
  | .many vs => vs

/-- `getattr(fissure, attribute)` over the nine dataclass fields. -/
def getAttr (f : Fissure) (a : String) : Option AttrVal :=
  if a = "node" then some (.str f.node)
  else if a = "mission" then some (.str f.mission)
  else if a = "planet" then some (.str f.planet)
  else if a = "tileset" then some (.str f.tileset)
  else if a = "enemy" then some (.str f.enemy)
  else if a = "era" then some (.str f.era)
  else if a = "tier" then some (.int f.tier)
  else if a = "expiry" then some (.int f.expiry)
  else if a = "fissure_type" then some (.str f.fissure_type)
  else none

/-- `_filter_condition`: the fissure's attribute is among the accepted
values.  (An attribute name outside the dataclass fields would raise
`AttributeError` in Python; no engine call site uses one.) -/
def filter_condition (f : Fissure) (attr : String) (value : FilterVal) : Bool :=
  match getAttr f attr with
  | some x => decide (x ∈ ensure_list value)
  | none => false

/-- `get_fissures(fissure_type, **kwargs)`: reject unknown categories, then
keep the fissures satisfying every keyword filter whose value is not
`None`. -/
def get_fissures (s : EngineState) (fissure_type : String)
    (kwargs : List (String × Option FilterVal)) : Except EngineError (List Fissure) :=
  if fissure_type ∉ FISSURE_TYPES then .error .invalidCategory
  else
    .ok ((getList s.fissure_lists fissure_type).filter
      (fun f => (kwargs.filter (fun p => p.2.isSome)).all
        (fun p => match p.2 with
          | some v => filter_condition f p.1 v
          | none => true)))

/-- Well-formedness of the per-category collections: every fissure sits in
the collection keyed by its own `fissure_type`.  `add_fissure` is only ever
called with the fissure's own type, so every reachable state satisfies
this. -/
def wfLists (ls : FissureLists) : Prop :=
  (∀ f ∈ ls.void_storms, f.fissure_type = FISSURE_TYPE_VOID_STORMS) ∧
  (∀ f ∈ ls.steel_path, f.fissure_type = FISSURE_TYPE_STEEL_PATH) ∧
  (∀ f ∈ ls.normal, f.fissure_type = FISSURE_TYPE_NORMAL)

instance (ls : FissureLists) : Decidable (wfLists ls) := by
  unfold wfLists; infer_instance

/-- All entities of a registry snapshot, concatenated in the fixed category
dictionary order (Void Storms, Steel Path, Normal). -/
def allFissures (ls : FissureLists) : List Fissure :=
  ls.void_storms ++ ls.steel_path ++ ls.normal

/-- The era keys of the consecutive `groupby` runs of a list. -/
def eraKeys (l : List Fissure) : List String :=
  (groupByEra l).map Prod.fst

/-- The last `n` elements of a list. -/
def lastN {β : Type} (n : Nat) (l : List β) : List β :=
  l.drop (l.length - n)

/-- A small concrete reference-data configuration used by the concrete
witnesses and counterexamples. -/
def cfgDemo : Config :=
  { sol_nodes := [("SolNode1", ⟨"Capture", "Node1", "Earth", none, "Grineer"⟩),
                  ("SolNode2", ⟨"Defense", "Node2", "Mars", some "Desert", "Corpus"⟩)],
    mission_overrides := [],
    era_key := [("Void Storms", "ActiveMissionTier"), ("Steel Path", "Modifier"),
                ("Normal", "Modifier")],
    era_table := [("VoidT1", "Lith"), ("VoidT2", "Meso"), ("VoidT5", "Requiem")],
    tier_table := [("Capture", 1), ("Defense", 2)],
    SORT_ORDER := fun e =>
      if e = "Lith" then 0 else if e = "Meso" then 1 else if e = "Neo" then 2
      else if e = "Axi" then 3 else if e = "Requiem" then 4 else 5 }

def rawNormalLith : RawFissure := ⟨[("Modifier", "VoidT1")], some "SolNode1", some 60000⟩

def rawNormalMeso : RawFissure := ⟨[("Modifier", "VoidT2")], some "SolNode2", some 120000⟩

/-- A malformed raw entry: its era code is missing from the era table, so the
era lookup inside `get_fissure_data` raises `KeyError`. -/
def rawBad : RawFissure := ⟨[("Modifier", "VoidT9")], some "SolNode1", some 60000⟩

def rawVS : RawFissure := ⟨[("ActiveMissionTier", "VoidT1")], some "SolNode2", some 180000⟩

def fLith : Fissure :=
  ⟨"Node1", "Capture", "Earth", "Space", "Grineer", "Lith", 1, 60, "Normal"⟩

def fMeso : Fissure :=
  ⟨"Node2", "Defense", "Mars", "Desert", "Corpus", "Meso", 2, 120, "Normal"⟩

def fVSLith : Fissure :=
  ⟨"Node2", "Defense", "Mars", "Desert", "Corpus", "Lith", 2, 180, "Void Storms"⟩

/-- A Requiem-era Void Storms fissure, used to exhibit the era-scope
divergence of `get_resets`. -/
def fVSRequiem : Fissure :=
  ⟨"Node1", "Capture", "Earth", "Space", "Grineer", "Requiem", 1, 3600, "Void Storms"⟩

/-- The state after the first demo rebuild. -/
def s1Demo : EngineState := ⟨⟨[], [], [fLith]⟩, [], some 100⟩

/-- The state after the second demo rebuild. -/
def s2Demo : EngineState :=
  ⟨⟨[fVSLith], [], [fLith, fMeso]⟩, [(200, [fVSLith, fMeso])], some 200⟩

/-- The state a failed demo rebuild leaves behind: collections cleared and
partially repopulated, log and `last_update` untouched. -/
def errStateC1 : EngineState := ⟨⟨[], [], [fMeso]⟩, [], none⟩

/-- A registry state holding one Requiem-era Void Storms fissure. -/
def sVSDemo : EngineState := ⟨⟨[fVSRequiem], [], []⟩, [], some 100⟩

/-- A registry state with a two-entry update log. -/
def sLogDemo : EngineState := ⟨⟨[], [], []⟩, [(1, [fLith]), (3, [fMeso])], some 3⟩



/-- The value `get_last_expiry` stores for one non-empty consecutive era
group: the expiry of the head of the descending sort (the group's maximum)
minus the 3-minute margin. -/
def groupValue (g : List Fissure) : Int :=
  match List.insertionSort expiryGE g with
  | [] => 0
  | f :: _ => f.expiry - 180

theorem classify_fissure_type_mem (raw : RawFissure) :
    classify_fissure_type raw = FISSURE_TYPE_VOID_STORMS ∨
    classify_fissure_type raw = FISSURE_TYPE_STEEL_PATH ∨
    classify_fissure_type raw = FISSURE_TYPE_NORMAL := by
  unfold classify_fissure_type
  split
  · exact Or.inl rfl
  · split
    · exact Or.inr (Or.inl rfl)
    · exact Or.inr (Or.inr rfl)

theorem buildEntry_fissure_type {cfg : Config} {raw : RawFissure} {f : Fissure}
    (h : buildEntry cfg raw = some f) :
    f.fissure_type = classify_fissure_type raw := by
  unfold buildEntry at h
  dsimp only [] at h
  split at h
  · exact absurd h (by simp)
  · split at h
    · exact absurd h (by simp)
    · split at h
      · exact absurd h (by simp)
      · split at h
        · exact absurd h (by simp)
        · injection h with h
          rw [← h]

theorem wfLists_empty : wfLists emptyLists := by
  refine ⟨?_, ?_, ?_⟩ <;> intro f hf <;> simp [emptyLists] at hf

theorem wfLists_add {ls : FissureLists} {f : Fissure} (hwf : wfLists ls)
    (ht : f.fissure_type = FISSURE_TYPE_VOID_STORMS ∨
          f.fissure_type = FISSURE_TYPE_STEEL_PATH ∨
          f.fissure_type = FISSURE_TYPE_NORMAL) :
    wfLists (add_fissure ls f f.fissure_type) := by
  obtain ⟨h1, h2, h3⟩ := hwf
  rcases ht with h | h | h
  · unfold add_fissure
    rw [if_pos h]
    refine ⟨?_, h2, h3⟩
    intro g hg
    rcases List.mem_append.mp hg with hg | hg
    · exact h1 g hg
    · rw [List.mem_singleton.mp hg]; exact h
  · unfold add_fissure
    rw [if_neg (by rw [h]; decide), if_pos h]
    refine ⟨h1, ?_, h3⟩
    intro g hg
    rcases List.mem_append.mp hg with hg | hg
    · exact h2 g hg
    · rw [List.mem_singleton.mp hg]; exact h
  · unfold add_fissure
    rw [if_neg (by rw [h]; decide), if_neg (by rw [h]; decide)]
    refine ⟨h1, h2, ?_⟩
    intro g hg
    rcases List.mem_append.mp hg with hg | hg
    · exact h3 g hg
    · rw [List.mem_singleton.mp hg]; exact h

theorem buildLoop_wf {cfg : Config} : ∀ {raws : List RawFissure} {ls out : FissureLists},
    wfLists ls → buildLoop cfg raws ls = .ok out → wfLists out
  | [], ls, out, hwf, h => by
    unfold buildLoop at h
    injection h with h
    rw [← h]; exact hwf
  | raw :: raws, ls, out, hwf, h => by
    unfold buildLoop at h
    cases hbe : buildEntry cfg raw with
    | none => rw [hbe] at h; exact absurd h (by simp)
    | some f =>
      rw [hbe] at h
      have ht := buildEntry_fissure_type hbe
      exact buildLoop_wf (wfLists_add hwf (ht ▸ classify_fissure_type_mem raw)) h

theorem mem_insertionSort {r : Fissure → Fissure → Prop} [DecidableRel r]
    {f : Fissure} {l : List Fissure} :
    f ∈ List.insertionSort r l ↔ f ∈ l :=
  (List.perm_insertionSort r l).mem_iff

theorem wfLists_sortLists {cfg : Config} {ls : FissureLists} (hwf : wfLists ls) :
    wfLists (sortLists cfg ls) := by
  obtain ⟨h1, h2, h3⟩ := hwf
  exact ⟨fun f hf => h1 f (mem_insertionSort.mp hf),
         fun f hf => h2 f (mem_insertionSort.mp hf),
         fun f hf => h3 f (mem_insertionSort.mp hf)⟩

theorem mem_allFissures {f : Fissure} {ls : FissureLists} :
    f ∈ allFissures ls ↔ f ∈ ls.void_storms ∨ f ∈ ls.steel_path ∨ f ∈ ls.normal := by
  simp [allFissures, List.mem_append, or_assoc]

theorem diffList_eq_filter_all (nw oldc all : List Fissure)
    (hmem : ∀ f ∈ nw, (f ∈ all ↔ f ∈ oldc)) :
    diffList nw oldc = nw.filter (fun f => decide (f ∉ all)) := by
  unfold diffList
  apply List.filter_congr
  intro f hf
  rw [decide_eq_decide]
  exact not_congr (hmem f hf).symm

/-- Claim C1 (amended): when `build_fissure_list` fails, `last_update` and the
update log are left exactly as they were, but the per-category collections are
NOT restored: they are left cleared and repopulated with precisely the entries
built before the failing one (the error value of the partial build loop run
from empty collections).  The original claim — that the whole registry equals
its pre-rebuild snapshot — is refuted by `c1_partial_state_counterexample`. -/
theorem c1_failed_rebuild_leaves_partial_lists (cfg : Config) (now : Int)
    (raws : List RawFissure) (s e : EngineState)
    (h : build_fissure_list cfg now raws s = .error e) :
    e.last_update = s.last_update ∧ e.update_log = s.update_log ∧
    buildLoop cfg raws emptyLists = .error e.fissure_lists := by
  unfold build_fissure_list at h
  cases hb : buildLoop cfg raws emptyLists with
  | error pl =>
    rw [hb] at h
    injection h with h
    rw [← h]
    exact ⟨rfl, rfl, rfl⟩
  | ok built =>
    rw [hb] at h
    exact absurd h (by simp)

/-- Counterexample to claim C1 as stated: a rebuild over a well-formed entry
followed by a malformed one fails, and the state it leaves behind has
per-category collections different from the pre-rebuild ones (the first
entry's fissure is still in the Normal collection). -/
theorem c1_partial_state_counterexample :
    build_fissure_list cfgDemo 100 [rawNormalMeso, rawBad] initState = .error errStateC1 ∧
    errStateC1.fissure_lists ≠ initState.fissure_lists := by
  constructor
  · rfl
  · decide

/-- Witness for the amended C1 at the concrete failing rebuild. -/
theorem c1_failed_rebuild_leaves_partial_lists_witness :
    errStateC1.last_update = initState.last_update ∧
    errStateC1.update_log = initState.update_log ∧
    buildLoop cfgDemo [rawNormalMeso, rawBad] emptyLists = .error errStateC1.fissure_lists :=
  c1_failed_rebuild_leaves_partial_lists cfgDemo 100 [rawNormalMeso, rawBad]
    initState errStateC1 rfl

/-- Claim C3: a successful rebuild from a well-formed prior snapshot returns
exactly the entities of the new snapshot that are absent (by full value
equality) from the prior snapshot, as a list in registry order; the very
first rebuild (no `last_update` yet) returns the empty diff regardless of
the feed, and `last_update` is set unconditionally. -/
theorem c3_diff_correctness (cfg : Config) (now : Int) (raws : List RawFissure)
    (s s2 : EngineState) (diff : List Fissure)
    (hwf : wfLists s.fissure_lists)
    (h : build_fissure_list cfg now raws s = .ok (s2, diff)) :
    (s.last_update = none → diff = []) ∧
    (s.last_update ≠ none →
      diff = (allFissures s2.fissure_lists).filter
        (fun f => decide (f ∉ allFissures s.fissure_lists))) ∧
    s2.last_update = some now := by
  unfold build_fissure_list at h
  cases hb : buildLoop cfg raws emptyLists with
  | error pl => rw [hb] at h; exact absurd h (by simp)
  | ok built =>
    rw [hb] at h
    dsimp only [] at h
    have hwfb : wfLists (sortLists cfg built) :=
      wfLists_sortLists (buildLoop_wf wfLists_empty hb)
    injection h with h
    injection h with h1 h2
    subst h1
    subst h2
    refine ⟨fun hnone => ?_, fun hne => ?_, rfl⟩
    · rw [hnone]
      simp
    · have hsome : (s.last_update).isSome := Option.isSome_iff_ne_none.mpr hne
      rw [if_pos hsome]
      have hall : allFissures (sortLists cfg built) =
          (sortLists cfg built).void_storms ++ (sortLists cfg built).steel_path ++
            (sortLists cfg built).normal := rfl
      rw [hall, List.filter_append, List.filter_append]
      congr 1
      · congr 1
        · apply diffList_eq_filter_all
          intro f hf
          have hty : f.fissure_type = FISSURE_TYPE_VOID_STORMS := hwfb.1 f hf
          rw [mem_allFissures]
          constructor
          · rintro (hm | hm | hm)
            · exact hm
            · exact absurd ((hwf.2.1 f hm).symm.trans hty) (by decide)
            · exact absurd ((hwf.2.2 f hm).symm.trans hty) (by decide)
          · exact fun hm => Or.inl hm
        · apply diffList_eq_filter_all
          intro f hf
          have hty : f.fissure_type = FISSURE_TYPE_STEEL_PATH := hwfb.2.1 f hf
          rw [mem_allFissures]
          constructor
          · rintro (hm | hm | hm)
            · exact absurd ((hwf.1 f hm).symm.trans hty) (by decide)
            · exact hm
            · exact absurd ((hwf.2.2 f hm).symm.trans hty) (by decide)
          · exact fun hm => Or.inr (Or.inl hm)
      · apply diffList_eq_filter_all
        intro f hf
        have hty : f.fissure_type = FISSURE_TYPE_NORMAL := hwfb.2.2 f hf
        rw [mem_allFissures]
        constructor
        · rintro (hm | hm | hm)
          · exact absurd ((hwf.1 f hm).symm.trans hty) (by decide)
          · exact absurd ((hwf.2.1 f hm).symm.trans hty) (by decide)
          · exact hm
        · exact fun hm => Or.inr (Or.inr hm)

/-- Witness for C3: the first demo rebuild yields an empty diff and sets
`last_update`; the second returns exactly the new snapshot's entities missing
from the first. -/
theorem c3_diff_correctness_witness :
    (([] : List Fissure) = []) ∧ s1Demo.last_update = some 100 ∧
    [fVSLith, fMeso] = (allFissures s2Demo.fissure_lists).filter
      (fun f => decide (f ∉ allFissures s1Demo.fissure_lists)) := by
  refine ⟨?_, ?_, ?_⟩
  · exact (c3_diff_correctness cfgDemo 100 [rawNormalLith] initState s1Demo []
      (by decide) rfl).1 rfl
  · exact (c3_diff_correctness cfgDemo 100 [rawNormalLith] initState s1Demo []
      (by decide) rfl).2.2
  · exact (c3_diff_correctness cfgDemo 200 [rawNormalMeso, rawNormalLith, rawVS]
      s1Demo s2Demo [fVSLith, fMeso] (by decide) rfl).2.1 (by simp [s1Demo])

/-- Claim C5: after every successful rebuild, each category's collection is
sorted non-decreasingly by the pair (rank in the injected `SORT_ORDER` table,
expiry); the statement holds for the supplied lookup table itself, whatever
order it encodes — not alphabetical order, not declaration order. -/
theorem c5_sorted_after_rebuild (cfg : Config) (now : Int) (raws : List RawFissure)
    (s s2 : EngineState) (diff : List Fissure) (c : String)
    (h : build_fissure_list cfg now raws s = .ok (s2, diff)) (hc : c ∈ FISSURE_TYPES) :
    List.Sorted (fissureLE cfg.SORT_ORDER) (getList s2.fissure_lists c) := by
  unfold build_fissure_list at h
  cases hb : buildLoop cfg raws emptyLists with
  | error pl => rw [hb] at h; exact absurd h (by simp)
  | ok built =>
    rw [hb] at h
    dsimp only [] at h
    injection h with h
    injection h with h1 h2
    subst h1
    rcases (show c = FISSURE_TYPE_VOID_STORMS ∨ c = FISSURE_TYPE_STEEL_PATH ∨
        c = FISSURE_TYPE_NORMAL from by simpa [FISSURE_TYPES] using hc) with rfl | rfl | rfl
    · unfold getList
      rw [if_pos rfl]
      exact List.sorted_insertionSort _ _
    · unfold getList
      rw [if_neg (by decide), if_pos rfl]
      exact List.sorted_insertionSort _ _
    · unfold getList
      rw [if_neg (by decide), if_neg (by decide), if_pos rfl]
      exact List.sorted_insertionSort _ _

/-- Witness for C5 at the concrete second demo rebuild. -/
theorem c5_sorted_after_rebuild_witness :
    List.Sorted (fissureLE cfgDemo.SORT_ORDER) (getList s2Demo.fissure_lists FISSURE_TYPE_NORMAL) :=
  c5_sorted_after_rebuild cfgDemo 200 [rawNormalMeso, rawNormalLith, rawVS]
    s1Demo s2Demo [fVSLith, fMeso] FISSURE_TYPE_NORMAL rfl (by decide)


/-- Claim C7: in time-left mode the hour segment is omitted entirely when the
hour count is 0, no seconds are ever shown (the rendered string is exactly the
hour/minute form), and the minute word is singular at exactly 1 minute and
plural at 0 or 2-or-more minutes. -/
theorem c7_time_left_rendering (now expiry : Int) :
    (Int.fdiv (expiry - now) 3600 = 0 →
      format_time_remaining now expiry DISPLAY_TYPE_TIME_LEFT =
        some ("in " ++ toString (Int.fdiv (Int.fmod (expiry - now) 3600) 60) ++ " minute" ++
          (if Int.fdiv (Int.fmod (expiry - now) 3600) 60 = 1 then "" else "s"))) ∧
    (Int.fdiv (Int.fmod (expiry - now) 3600) 60 = 1 →
      format_time_remaining now expiry DISPLAY_TYPE_TIME_LEFT =
        some ("in " ++
          (if 0 < Int.fdiv (expiry - now) 3600 then
            toString (Int.fdiv (expiry - now) 3600) ++ " hour " else "") ++ "1 minute")) ∧
    ((Int.fdiv (Int.fmod (expiry - now) 3600) 60 = 0 ∨
        2 ≤ Int.fdiv (Int.fmod (expiry - now) 3600) 60) →
      format_time_remaining now expiry DISPLAY_TYPE_TIME_LEFT =
        some ("in " ++
          (if 0 < Int.fdiv (expiry - now) 3600 then
            toString (Int.fdiv (expiry - now) 3600) ++ " hour " else "") ++
          toString (Int.fdiv (Int.fmod (expiry - now) 3600) 60) ++ " minutes")) := by
  refine ⟨fun h0 => ?_, fun h1 => ?_, fun h2 => ?_⟩
  · simp only [format_time_remaining, if_pos rfl, h0]
    norm_num
  · have hs : toString (1 : Int) ++ " minute" = "1 minute" := by decide
    simp [format_time_remaining, h1, String.append_assoc, hs]
  · have hne : Int.fdiv (Int.fmod (expiry - now) 3600) 60 ≠ 1 := by omega
    have hs : (" minute" : String) ++ "s" = " minutes" := by decide
    simp [format_time_remaining, hne, String.append_assoc, hs]

/-- Witness for C7 at concrete inputs: 60 seconds remaining renders the
singular form, 120 seconds the plural one. -/
theorem c7_time_left_rendering_witness :
    format_time_remaining 0 60 DISPLAY_TYPE_TIME_LEFT = some "in 1 minute" ∧
    format_time_remaining 0 120 DISPLAY_TYPE_TIME_LEFT = some "in 2 minutes" := by
  constructor
  · have h := (c7_time_left_rendering 0 60).2.1 (by decide)
    simpa using h
  · have h := (c7_time_left_rendering 0 120).2.2 (by decide)
    simpa using h

/-- Claim C9: a display mode that is neither `'Time Left'` nor `'Discord'`
makes `format_time_remaining` fall through both branches and return Python
`None` (here `none`), not raise and not fall back to a default mode. -/
theorem c9_unknown_display_type_returns_none (now expiry : Int) (display_type : String)
    (h1 : display_type ≠ DISPLAY_TYPE_TIME_LEFT) (h2 : display_type ≠ DISPLAY_TYPE_DISCORD) :
    format_time_remaining now expiry display_type = none := by
  simp [format_time_remaining, h1, h2]

/-- Witness for C9 at a concrete unknown display mode. -/
theorem c9_unknown_display_type_returns_none_witness :
    format_time_remaining 0 60 "Mobile" = none :=
  c9_unknown_display_type_returns_none 0 60 "Mobile" (by decide) (by decide)

/-- Claim C8: a category string outside the three canonical names makes both
`get_fissures` and `get_resets` raise the invalid-category error immediately
(no partial result — the embedding returns only the error), while a canonical
name never triggers that error from either operation (the state is never
mutated by either: both are pure reads). -/
theorem c8_invalid_category_rejection (now : Int) (s : EngineState)
    (ft display_type : String) (emoji_dict : Option (List (String × String)))
    (era_list : Option (List String)) (kwargs : List (String × Option FilterVal)) :
    (ft ∉ FISSURE_TYPES →
      get_fissures s ft kwargs = .error .invalidCategory ∧
      get_resets now s ft display_type emoji_dict era_list = .error .invalidCategory) ∧
    (ft ∈ FISSURE_TYPES →
      (∃ l, get_fissures s ft kwargs = .ok l) ∧
      get_resets now s ft display_type emoji_dict era_list ≠
        .error .invalidCategory) := by
  constructor
  · intro h
    constructor
    · simp [get_fissures, h]
    · simp [get_resets, h]
  · intro h
    constructor
    · refine ⟨(getList s.fissure_lists ft).filter
        (fun f => (kwargs.filter (fun p => p.2.isSome)).all
          (fun p => match p.2 with
            | some v => filter_condition f p.1 v
            | none => true)), ?_⟩
      unfold get_fissures
      rw [if_neg (by simpa using h)]
    · unfold get_resets
      rw [if_neg (by simpa using h)]
      rcases hmin : minByVal (lookupInner
          (get_last_expiry s (some (era_list.getD (get_era_list FISSURE_TYPE_NORMAL)))) ft)
        with _ | p <;> simp [hmin]

/-- Witness for C8: a concrete bad category is rejected by both operations; a
concrete canonical one is not rejected with the invalid-category error. -/
theorem c8_invalid_category_rejection_witness :
    get_fissures initState "Banana" [] = .error .invalidCategory ∧
    get_resets 0 initState "Banana" DISPLAY_TYPE_TIME_LEFT none none =
      .error .invalidCategory ∧
    get_resets 0 initState FISSURE_TYPE_NORMAL DISPLAY_TYPE_TIME_LEFT none none ≠
      .error .invalidCategory := by
  refine ⟨?_, ?_, ?_⟩
  · exact ((c8_invalid_category_rejection 0 initState "Banana" DISPLAY_TYPE_TIME_LEFT
      none none []).1 (by decide)).1
  · exact ((c8_invalid_category_rejection 0 initState "Banana" DISPLAY_TYPE_TIME_LEFT
      none none []).1 (by decide)).2
  · exact ((c8_invalid_category_rejection 0 initState FISSURE_TYPE_NORMAL
      DISPLAY_TYPE_TIME_LEFT none none []).2 (by decide)).2

/-- Claim C10: every keyword filter whose value is `None` is skipped by
`get_fissures`, so a call in which all filter values are `None` returns the
category's full collection, identical to a call with no filters at all. -/
theorem c10_none_filters_skipped (s : EngineState) (ft : String)
    (kwargs : List (String × Option FilterVal))
    (hft : ft ∈ FISSURE_TYPES) (hnone : ∀ p ∈ kwargs, p.2 = none) :
    get_fissures s ft kwargs = .ok (getList s.fissure_lists ft) ∧
    get_fissures s ft kwargs = get_fissures s ft [] := by
  have hfilter : kwargs.filter (fun p => p.2.isSome) = [] := by
    rw [List.filter_eq_nil_iff]
    intro p hp
    simp [hnone p hp]
  constructor
  · unfold get_fissures
    rw [if_neg (by simpa using hft), hfilter]
    simp
  · unfold get_fissures
    rw [if_neg (by simpa using hft), if_neg (by simpa using hft), hfilter]
    simp

/-- Witness for C10 at a concrete state and an all-`None` filter set. -/
theorem c10_none_filters_skipped_witness :
    get_fissures initState FISSURE_TYPE_NORMAL [("era", none), ("tier", none)] =
      .ok [] ∧
    get_fissures initState FISSURE_TYPE_NORMAL [("era", none), ("tier", none)] =
      get_fissures initState FISSURE_TYPE_NORMAL [] := by
  have h := c10_none_filters_skipped initState FISSURE_TYPE_NORMAL
    [("era", none), ("tier", none)] (by decide) (by intro p hp; fin_cases hp <;> rfl)
  exact ⟨h.1, h.2⟩

/-- Claim C2 (code divergence): `get_era_list` itself implements the
per-category default — the four-era list (no Requiem) for Void Storms, the
five-era list otherwise — but `get_resets` and `get_last_expiry` resolve a
missing `era_list` by calling `self.get_era_list()` with no argument, whose
Python default is `FISSURE_TYPE_NORMAL`.  The category at hand is never
passed, so the five-era scope is used for every category: with a Requiem-era
Void Storms fissure in the registry, `get_resets('Void Storms')` happily
reports a Requiem reset, which the claimed four-era scope would exclude. -/
theorem c2_era_scope_divergence :
    get_era_list FISSURE_TYPE_VOID_STORMS = ERA_LIST_VOID_STORMS ∧
    ERA_REQUIEM ∉ ERA_LIST_VOID_STORMS ∧
    (none : Option (List String)).getD (get_era_list FISSURE_TYPE_NORMAL) = ERA_LIST ∧
    get_resets 0 sVSDemo FISSURE_TYPE_VOID_STORMS DISPLAY_TYPE_TIME_LEFT none none =
      .ok ["Next reset is Requiem in 57 minutes", "Requiem in 57 minutes"] := by
  refine ⟨rfl, by decide, rfl, by decide⟩

theorem pushLog_eq_lastN (l : List (Int × List Fissure)) (e : Int × List Fissure) :
    pushLog l e = lastN MAX_STORED_UPDATES (l ++ [e]) := by
  unfold pushLog lastN
  dsimp only []
  split
  · rfl
  · rename_i hle
    rw [Nat.sub_eq_zero_of_le (by omega), List.drop_zero]

theorem pushLog_length_le (l : List (Int × List Fissure)) (e : Int × List Fissure)
    (h : l.length ≤ MAX_STORED_UPDATES) :
    (pushLog l e).length ≤ MAX_STORED_UPDATES := by
  unfold pushLog
  dsimp only []
  split
  · simp only [List.length_drop]
    omega
  · rename_i hle
    simp only [List.length_append, List.length_singleton] at *
    omega

theorem lastN_of_length_le {β : Type} (n : Nat) (l : List β) (h : l.length ≤ n) :
    lastN n l = l := by
  unfold lastN
  rw [Nat.sub_eq_zero_of_le h, List.drop_zero]

theorem lastN_absorb {β : Type} (n : Nat) (a b : List β) :
    lastN n (lastN n a ++ b) = lastN n (a ++ b) := by
  by_cases ha : a.length ≤ n
  · rw [lastN_of_length_le n a ha]
  · unfold lastN
    have hk : a.length - n ≤ a.length := Nat.sub_le _ _
    rw [← List.drop_append_of_le_length hk, List.drop_drop]
    congr 1
    simp only [List.length_append, List.length_drop]
    omega

theorem foldl_pushLog (es : List (Int × List Fissure)) :
    ∀ init : List (Int × List Fissure), init.length ≤ MAX_STORED_UPDATES →
      es.foldl pushLog init = lastN MAX_STORED_UPDATES (init ++ es) := by
  induction es with
  | nil =>
    intro init h
    simp only [List.foldl_nil, List.append_nil]
    exact (lastN_of_length_le _ _ h).symm
  | cons e es ih =>
    intro init h
    rw [List.foldl_cons, ih (pushLog init e) (pushLog_length_le init e h),
      pushLog_eq_lastN, lastN_absorb]
    congr 1
    simp

theorem lastN_append_right {β : Type} (n : Nat) (a b : List β) (h : n ≤ b.length) :
    lastN n (a ++ b) = lastN n b := by
  unfold lastN
  have h1 : (a ++ b).length - n = a.length + (b.length - n) := by
    simp only [List.length_append]
    omega
  rw [h1, ← List.drop_drop, List.drop_left]

/-- Claim C6: `get_updates_since(t)` returns the current `last_update`
together with the flattened concatenation, in log (i.e. timestamp-ascending)
order, of the diffs of all logged polls strictly newer than `t`; the log only
ever receives non-empty diffs, holds at most 10 entries across rebuilds, and
once 10 or more non-empty-diff rebuilds have been logged, everything older
than the 10 most recent has been evicted. -/
theorem c6_changes_since (s : EngineState) (t : Int)
    (hsort : List.Sorted (· < ·) (s.update_log.map Prod.fst))
    (hlen : s.update_log.length ≤ MAX_STORED_UPDATES) :
    (get_updates_since s t =
      (s.last_update,
        ((s.update_log.filter (fun e => decide (t < e.1))).map Prod.snd).flatten)) ∧
    List.Sorted (· < ·) ((s.update_log.filter (fun e => decide (t < e.1))).map Prod.fst) ∧
    (∀ cfg now raws s2 diff, build_fissure_list cfg now raws s = .ok (s2, diff) →
      (diff = [] → s2.update_log = s.update_log) ∧
      (diff ≠ [] → s2.update_log = pushLog s.update_log (now, diff)) ∧
      s2.update_log.length ≤ MAX_STORED_UPDATES) ∧
    (∀ entries : List (Int × List Fissure), MAX_STORED_UPDATES ≤ entries.length →
      entries.foldl pushLog s.update_log = lastN MAX_STORED_UPDATES entries) := by
  refine ⟨?_, ?_, ?_, ?_⟩
  · simp [get_updates_since, List.flatMap_def]
  · exact List.Pairwise.sublist (List.Sublist.map _ (List.filter_sublist _)) hsort
  · intro cfg now raws s2 diff h
    unfold build_fissure_list at h
    cases hb : buildLoop cfg raws emptyLists with
    | error pl => rw [hb] at h; exact absurd h (by simp)
    | ok built =>
      rw [hb] at h
      dsimp only [] at h
      injection h with h
      injection h with h1 h2
      subst h1
      subst h2
      refine ⟨fun hd => ?_, fun hd => ?_, ?_⟩
      · rw [hd]; rfl
      · rw [if_neg (by simpa [List.isEmpty_iff] using hd)]
      · by_cases hd : (if (s.last_update).isSome = true then
            diffList (sortLists cfg built).void_storms s.fissure_lists.void_storms ++
              diffList (sortLists cfg built).steel_path s.fissure_lists.steel_path ++
              diffList (sortLists cfg built).normal s.fissure_lists.normal
          else []).isEmpty
        · rw [if_pos hd]; exact hlen
        · rw [if_neg hd]; exact pushLog_length_le _ _ hlen
  · intro entries h
    rw [foldl_pushLog entries s.update_log hlen, lastN_append_right _ _ _ h]

/-- Witness for C6 at a concrete two-entry log and client timestamp 2. -/
theorem c6_changes_since_witness :
    get_updates_since sLogDemo 2 = (some 3, [fMeso]) ∧
    List.Sorted (· < ·) ((sLogDemo.update_log.filter (fun e => decide ((2:Int) < e.1))).map Prod.fst) := by
  constructor
  · have h := (c6_changes_since sLogDemo 2 (by decide) (by decide)).1
    rw [h]
    rfl
  · exact (c6_changes_since sLogDemo 2 (by decide) (by decide)).2.1

theorem groupByEra_key_era : ∀ (l : List Fissure) (e : String) (g : List Fissure),
    (e, g) ∈ groupByEra l → ∀ f ∈ g, f.era = e
  | [], e, g, hm => by simp [groupByEra] at hm
  | f :: fs, e, g, hm => by
    unfold groupByEra at hm
    cases hrec : groupByEra fs with
    | nil =>
      rw [hrec] at hm
      dsimp only [] at hm
      simp only [List.mem_singleton, Prod.mk.injEq] at hm
      obtain ⟨he, hg⟩ := hm
      subst he
      subst hg
      intro x hx
      rcases List.mem_singleton.mp hx with rfl
      rfl
    | cons p rest =>
      rw [hrec] at hm
      rcases p with ⟨e1, g1⟩
      dsimp only [] at hm
      by_cases hef : f.era = e1
      · rw [if_pos hef] at hm
        rcases List.mem_cons.mp hm with hm | hm
        · obtain ⟨he, hg⟩ := Prod.mk.injEq .. |>.mp hm
          subst he
          subst hg
          intro x hx
          rcases List.mem_cons.mp hx with rfl | hx
          · rfl
          · have := groupByEra_key_era fs e1 g1 (hrec ▸ List.mem_cons_self _ _) x hx
            rw [this, hef]
        · exact groupByEra_key_era fs e g (hrec ▸ List.mem_cons_of_mem _ hm)
      · rw [if_neg hef] at hm
        rcases List.mem_cons.mp hm with hm | hm
        · obtain ⟨he, hg⟩ := Prod.mk.injEq .. |>.mp hm
          subst he
          subst hg
          intro x hx
          rcases List.mem_singleton.mp hx with rfl
          rfl
        · exact groupByEra_key_era fs e g (hrec ▸ hm)

theorem era_mem_eraKeys : ∀ (l : List Fissure) (f : Fissure), f ∈ l → f.era ∈ eraKeys l
  | [], f, hf => by simp at hf
  | x :: xs, f, hf => by
    unfold eraKeys groupByEra
    cases hrec : groupByEra xs with
    | nil =>
      dsimp only []
      rcases List.mem_cons.mp hf with rfl | hf
      · simp
      · have := era_mem_eraKeys xs f hf
        rw [eraKeys, hrec] at this
        simp at this
    | cons p rest =>
      rcases p with ⟨e1, g1⟩
      dsimp only []
      by_cases hef : x.era = e1
      · rw [if_pos hef]
        rcases List.mem_cons.mp hf with rfl | hf
        · simp
        · have := era_mem_eraKeys xs f hf
          rw [eraKeys, hrec] at this
          simp only [List.map_cons, List.mem_cons] at this ⊢
          rcases this with h | h
          · exact Or.inl (by rw [h, hef])
          · exact Or.inr h
      · rw [if_neg hef]
        rcases List.mem_cons.mp hf with rfl | hf
        · simp
        · have := era_mem_eraKeys xs f hf
          rw [eraKeys, hrec] at this
          simp only [List.map_cons, List.mem_cons] at this ⊢
          tauto

theorem groupByEra_nonempty : ∀ (l : List Fissure) (e : String) (g : List Fissure),
    (e, g) ∈ groupByEra l → g ≠ []
  | [], e, g, hm => by simp [groupByEra] at hm
  | f :: fs, e, g, hm => by
    unfold groupByEra at hm
    cases hrec : groupByEra fs with
    | nil =>
      rw [hrec] at hm
      dsimp only [] at hm
      simp only [List.mem_singleton, Prod.mk.injEq] at hm
      rw [hm.2]
      simp
    | cons p rest =>
      rw [hrec] at hm
      rcases p with ⟨e1, g1⟩
      dsimp only [] at hm
      by_cases hef : f.era = e1
      · rw [if_pos hef] at hm
        rcases List.mem_cons.mp hm with hm | hm
        · rw [(Prod.mk.injEq .. |>.mp hm).2]; simp
        · exact groupByEra_nonempty fs e g (hrec ▸ List.mem_cons_of_mem _ hm)
      · rw [if_neg hef] at hm
        rcases List.mem_cons.mp hm with hm | hm
        · rw [(Prod.mk.injEq .. |>.mp hm).2]; simp
        · exact groupByEra_nonempty fs e g (hrec ▸ hm)

theorem groupByEra_eq_nil : ∀ (l : List Fissure), groupByEra l = [] → l = []
  | [], _ => rfl
  | f :: fs, h => by
    unfold groupByEra at h
    cases hrec : groupByEra fs with
    | nil => rw [hrec] at h; simp at h
    | cons p rest =>
      rw [hrec] at h
      rcases p with ⟨e1, g1⟩
      dsimp only [] at h
      split at h <;> simp at h

theorem filter_era_eq_nil_of_not_key (l : List Fissure) (e : String)
    (he : e ∉ eraKeys l) : l.filter (fun x => decide (x.era = e)) = [] := by
  rw [List.filter_eq_nil_iff]
  intro x hx
  simp only [decide_eq_true_eq]
  intro hxe
  exact he (hxe ▸ era_mem_eraKeys l x hx)

theorem groupByEra_filter : ∀ (l : List Fissure), (eraKeys l).Nodup →
    ∀ (e : String) (g : List Fissure), (e, g) ∈ groupByEra l →
      g = l.filter (fun x => decide (x.era = e))
  | [], _, e, g, hm => by simp [groupByEra] at hm
  | f :: fs, hnd, e, g, hm => by
    unfold groupByEra at hm
    have hkeys : eraKeys (f :: fs) =
        (match groupByEra fs with
          | [] => [(f.era, [f])]
          | (e1, g1) :: rest =>
            if f.era = e1 then (f.era, f :: g1) :: rest
            else (f.era, [f]) :: (e1, g1) :: rest).map Prod.fst := by
      rw [eraKeys]
      congr 1
    cases hrec : groupByEra fs with
    | nil =>
      have hfs : fs = [] := groupByEra_eq_nil fs hrec
      rw [hrec] at hm
      dsimp only [] at hm
      simp only [List.mem_singleton, Prod.mk.injEq] at hm
      obtain ⟨he, hg⟩ := hm
      subst he
      subst hg
      subst hfs
      simp
    | cons p rest =>
      rw [hrec] at hm
      rcases p with ⟨e1, g1⟩
      rw [hrec] at hkeys
      dsimp only [] at hm hkeys
      by_cases hef : f.era = e1
      · rw [if_pos hef] at hm hkeys
        simp only [List.map_cons] at hkeys
        have hnd2 : (eraKeys fs).Nodup := by
          rw [eraKeys, hrec]
          simp only [List.map_cons]
          rw [← hef]
          exact hkeys ▸ hnd
        rcases List.mem_cons.mp hm with hm | hm
        · obtain ⟨he, hg⟩ := Prod.mk.injEq .. |>.mp hm
          subst he
          subst hg
          have hg1 : g1 = fs.filter (fun x => decide (x.era = e1)) :=
            groupByEra_filter fs hnd2 e1 g1 (hrec ▸ List.mem_cons_self _ _)
          simp only [List.filter_cons, decide_eq_true_eq]
          rw [if_pos trivial, hg1, hef]
        · have hne : e ≠ f.era := by
            intro hcontra
            have := (List.nodup_cons.mp (hkeys ▸ hnd)).1
            exact this (hcontra ▸ List.mem_map_of_mem Prod.fst hm)
          have hg : g = fs.filter (fun x => decide (x.era = e)) :=
            groupByEra_filter fs hnd2 e g (hrec ▸ List.mem_cons_of_mem _ hm)
          rw [hg]
          simp only [List.filter_cons, decide_eq_true_eq]
          rw [if_neg (fun hc => hne hc.symm)]
      · rw [if_neg hef] at hm hkeys
        simp only [List.map_cons] at hkeys
        have hnds := hkeys ▸ hnd
        have hnotin : f.era ∉ eraKeys fs := by
          rw [eraKeys, hrec]
          simp only [List.map_cons]
          exact (List.nodup_cons.mp hnds).1
        have hnd2 : (eraKeys fs).Nodup := by
          rw [eraKeys, hrec]
          simp only [List.map_cons]
          exact (List.nodup_cons.mp hnds).2
        rcases List.mem_cons.mp hm with hm | hm
        · obtain ⟨he, hg⟩ := Prod.mk.injEq .. |>.mp hm
          subst he
          subst hg
          simp only [List.filter_cons, decide_eq_true_eq]
          rw [if_pos trivial, filter_era_eq_nil_of_not_key fs _ hnotin]
        · have hg : g = fs.filter (fun x => decide (x.era = e)) :=
            groupByEra_filter fs hnd2 e g (hrec ▸ hm)
          have hmemfs : e ∈ eraKeys fs := by
            rw [eraKeys, hrec]
            exact List.mem_map_of_mem Prod.fst hm
          have hne : e ≠ f.era := fun hc => hnotin (hc ▸ hmemfs)
          rw [hg]
          simp only [List.filter_cons, decide_eq_true_eq]
          rw [if_neg (fun hc => hne hc.symm)]

theorem insertionSort_head_max (g : List Fissure) (f : Fissure) (t : List Fissure)
    (h : List.insertionSort expiryGE g = f :: t) :
    f ∈ g ∧ ∀ x ∈ g, x.expiry ≤ f.expiry := by
  have hperm := List.perm_insertionSort expiryGE g
  rw [h] at hperm
  have hsorted := List.sorted_insertionSort expiryGE g
  rw [h] at hsorted
  constructor
  · exact hperm.mem_iff.mp (List.mem_cons_self f t)
  · intro x hx
    rcases List.mem_cons.mp (hperm.mem_iff.mpr hx) with rfl | hx
    · exact le_refl _
    · exact List.rel_of_sorted_cons hsorted x hx

theorem insertionSort_ne_nil (g : List Fissure) (hg : g ≠ []) :
    List.insertionSort expiryGE g ≠ [] := by
  intro hcontra
  have hperm := List.perm_insertionSort expiryGE g
  rw [hcontra] at hperm
  exact hg hperm.symm.eq_nil

theorem dictInsert_append {β : Type} (acc : List (String × β)) (k : String) (v : β)
    (h : ∀ q ∈ acc, q.1 ≠ k) : dictInsert acc k v = acc ++ [(k, v)] := by
  unfold dictInsert
  split
  · rename_i hcontra
    obtain ⟨q, hq, hqk⟩ := List.any_eq_true.mp hcontra
    exact absurd (of_decide_eq_true hqk) (h q hq)
  · rfl

theorem foldl_groups (gs : List (String × List Fissure)) :
    ∀ acc : List (String × Int),
      (∀ p ∈ gs, p.2 ≠ []) →
      (∀ p ∈ gs, ∀ q ∈ acc, q.1 ≠ p.1) →
      (gs.map Prod.fst).Nodup →
      gs.foldl (fun d g =>
        match List.insertionSort expiryGE g.2 with
        | [] => d
        | f :: _ => dictInsert d g.1 (f.expiry - 180)) acc =
      acc ++ gs.map (fun g => (g.1, groupValue g.2)) := by
  induction gs with
  | nil => intro acc _ _ _; simp
  | cons p gs ih =>
    intro acc hne hdisj hnd
    rcases p with ⟨k, g⟩
    have hgne : g ≠ [] := hne (k, g) (List.mem_cons_self _ _)
    rw [List.foldl_cons]
    cases hs : List.insertionSort expiryGE g with
    | nil => exact absurd hs (insertionSort_ne_nil g hgne)
    | cons f t =>
      dsimp only []
      rw [dictInsert_append acc k (f.expiry - 180)
        (fun q hq => hdisj (k, g) (List.mem_cons_self _ _) q hq)]
      rw [ih (acc ++ [(k, f.expiry - 180)])
        (fun p hp => hne p (List.mem_cons_of_mem _ hp))
        ?hdisj2
        (List.nodup_cons.mp hnd).2]
      · have hv : groupValue g = f.expiry - 180 := by
          unfold groupValue
          rw [hs]
        simp only [List.map_cons, hv, List.append_assoc, List.singleton_append]
      case hdisj2 =>
        intro p hp q hq
        rcases List.mem_append.mp hq with hq | hq
        · exact hdisj p (List.mem_cons_of_mem _ hp) q hq
        · rcases List.mem_singleton.mp hq with rfl
          intro hcontra
          exact (List.nodup_cons.mp hnd).1 (hcontra ▸ List.mem_map_of_mem Prod.fst hp)

theorem lookup_map_groupValue_none (gs : List (String × List Fissure)) (e : String)
    (h : e ∉ gs.map Prod.fst) :
    (gs.map (fun g => (g.1, groupValue g.2))).lookup e = none := by
  induction gs with
  | nil => rfl
  | cons p gs ih =>
    simp only [List.map_cons, List.mem_cons, not_or] at h
    rw [List.map_cons, List.lookup_cons]
    have hbeq : (e == p.1) = false := beq_eq_false_iff_ne.mpr h.1
    rw [hbeq]
    exact ih h.2

theorem lookup_map_groupValue_some (gs : List (String × List Fissure)) (e : String)
    (g : List Fissure) (hnd : (gs.map Prod.fst).Nodup) (hm : (e, g) ∈ gs) :
    (gs.map (fun g => (g.1, groupValue g.2))).lookup e = some (groupValue g) := by
  induction gs with
  | nil => simp at hm
  | cons p gs ih =>
    rcases List.mem_cons.mp hm with rfl | hm
    · simp [List.lookup_cons]
    · simp only [List.map_cons, List.nodup_cons] at hnd
      have hne : e ≠ p.1 := by
        intro hcontra
        exact hnd.1 (hcontra ▸ List.mem_map_of_mem Prod.fst hm)
      rw [List.map_cons, List.lookup_cons]
      have hbeq : (e == p.1) = false := beq_eq_false_iff_ne.mpr hne
      rw [hbeq]
      exact ih hnd.2 hm

theorem lastExpiryInner_eq (el : List String) (L : List Fissure)
    (hnd : (eraKeys (L.filter (fun f => decide (f.era ∈ el)))).Nodup) :
    lastExpiryInner el L =
      (groupByEra (L.filter (fun f => decide (f.era ∈ el)))).map
        (fun g => (g.1, groupValue g.2)) := by
  unfold lastExpiryInner
  rw [foldl_groups _ []
    (fun p hp => groupByEra_nonempty _ p.1 p.2 hp)
    (fun p _ q hq => absurd hq (List.not_mem_nil q))
    hnd]
  simp

theorem lookupInner_get_last_expiry (s : EngineState) (el : List String) (c : String)
    (hc : c ∈ FISSURE_TYPES) :
    lookupInner (get_last_expiry s (some el)) c =
      lastExpiryInner el (getList s.fissure_lists c) := by
  have hc3 : c = FISSURE_TYPE_VOID_STORMS ∨ c = FISSURE_TYPE_STEEL_PATH ∨
      c = FISSURE_TYPE_NORMAL := by simpa [FISSURE_TYPES] using hc
  rcases hc3 with rfl | rfl | rfl <;>
    simp only [get_last_expiry, Option.getD_some, FISSURE_TYPES, List.map_cons, List.map_nil,
      List.filter_cons, List.filter_nil] <;>
    by_cases h1 : (lastExpiryInner el (getList s.fissure_lists FISSURE_TYPE_VOID_STORMS)).isEmpty <;>
    by_cases h2 : (lastExpiryInner el (getList s.fissure_lists FISSURE_TYPE_STEEL_PATH)).isEmpty <;>
    by_cases h3 : (lastExpiryInner el (getList s.fissure_lists FISSURE_TYPE_NORMAL)).isEmpty <;>
    simp_all [lookupInner, List.lookup_cons, List.isEmpty_iff, FISSURE_TYPE_VOID_STORMS,
      FISSURE_TYPE_STEEL_PATH, FISSURE_TYPE_NORMAL]

/-- Claim C4: for a category in scope whose filtered collection has its
equal-era entries consecutive (unique `groupby` keys — true of every
registry state, whose collections are sorted by era rank), the last-expiry
value stored for an era with at least one entity equals the maximum expiry
among that era's entities minus exactly 3 minutes (any entity whose expiry
dominates the group realises it, so the soonest-expiring entity never
influences the value), and an era with zero entities in scope is simply
absent from the result mapping. -/
theorem c4_last_expiry_margin (s : EngineState) (el : List String) (c e : String)
    (hc : c ∈ FISSURE_TYPES)
    (hnd : (eraKeys ((getList s.fissure_lists c).filter
      (fun f => decide (f.era ∈ el)))).Nodup) :
    ((getList s.fissure_lists c).filter (fun f => decide (f.era = e ∧ f.era ∈ el)) = [] →
      (lookupInner (get_last_expiry s (some el)) c).lookup e = none) ∧
    (∀ fmax ∈ (getList s.fissure_lists c).filter (fun f => decide (f.era = e ∧ f.era ∈ el)),
      (∀ x ∈ (getList s.fissure_lists c).filter (fun f => decide (f.era = e ∧ f.era ∈ el)),
        x.expiry ≤ fmax.expiry) →
      (lookupInner (get_last_expiry s (some el)) c).lookup e =
        some (fmax.expiry - 180)) := by
  have hstep : (getList s.fissure_lists c).filter (fun f => decide (f.era = e ∧ f.era ∈ el)) =
      ((getList s.fissure_lists c).filter (fun f => decide (f.era ∈ el))).filter
        (fun x => decide (x.era = e)) := by
    rw [List.filter_filter]
    apply List.filter_congr
    intro x _
    simp
  rw [lookupInner_get_last_expiry s el c hc,
    lastExpiryInner_eq el (getList s.fissure_lists c) hnd]
  by_cases he : e ∈ eraKeys ((getList s.fissure_lists c).filter (fun f => decide (f.era ∈ el)))
  · obtain ⟨p, hp, hpe⟩ := List.mem_map.mp he
    have hm : (e, p.2) ∈ groupByEra ((getList s.fissure_lists c).filter
        (fun f => decide (f.era ∈ el))) := by
      rw [← hpe]
      exact hp
    have hgeq : p.2 = ((getList s.fissure_lists c).filter
        (fun f => decide (f.era ∈ el))).filter (fun x => decide (x.era = e)) :=
      groupByEra_filter _ hnd e p.2 hm
    constructor
    · intro h0
      rw [hstep] at h0
      exact absurd (hgeq.trans h0) (groupByEra_nonempty _ e p.2 hm)
    · intro fmax hfm hdom
      rw [hstep] at hfm hdom
      rw [lookup_map_groupValue_some _ e p.2 hnd hm]
      cases hs : List.insertionSort expiryGE p.2 with
      | nil =>
        exact absurd hs (insertionSort_ne_nil p.2 (groupByEra_nonempty _ e p.2 hm))
      | cons f t =>
        obtain ⟨hfmem, hfmax⟩ := insertionSort_head_max p.2 f t hs
        have h1 : f.expiry ≤ fmax.expiry := hdom f (hgeq ▸ hfmem)
        have h2 : fmax.expiry ≤ f.expiry := hfmax fmax (hgeq ▸ hfm)
        have : groupValue p.2 = f.expiry - 180 := by
          unfold groupValue
          rw [hs]
        rw [this, le_antisymm h1 h2]
  · constructor
    · intro _
      exact lookup_map_groupValue_none _ e he
    · intro fmax hfm _
      rw [hstep, filter_era_eq_nil_of_not_key _ e he] at hfm
      exact absurd hfm (List.not_mem_nil fmax)

/-- Witness for C4 at a concrete state: the Normal collection holds a Lith
and a Meso fissure, and the Lith entry of the mapping is its maximal expiry
minus 180 seconds. -/
theorem c4_last_expiry_margin_witness :
    (lookupInner (get_last_expiry s2Demo (some ERA_LIST)) FISSURE_TYPE_NORMAL).lookup
      ERA_LITH = some (fLith.expiry - 180) :=
  (c4_last_expiry_margin s2Demo ERA_LIST FISSURE_TYPE_NORMAL ERA_LITH
    (by decide) (by decide)).2 fLith (by decide) (by decide)
